import Mathlib

/-!
Shallow embedding of the CSS specificity checker
(scripts/css-specificity-checker.py): the specificity calculator
(class CSSSpecificityCalculator) and the stylesheet selector extractor
(class CSSFileAnalyzer), together with proofs about them.

Strings are modelled as lists of characters.  Each regular-expression
scan of the Python code is embedded as a structurally recursive scanner
that advances over the input exactly as the re module scan does: at each
position it attempts the (deterministic) pattern using non-recursive
lookahead helpers built from takeWhile and dropWhile; on a match it skips
the length of the match (the extra Nat argument is the number of
characters still to skip), on a failure it advances one character.
Character classes follow the ASCII reading of the Python patterns.
-/

namespace CssCheck

/-- Specificity tuple: (inline, ids, classes, elements). -/
abbrev Specificity := Nat × Nat × Nat × Nat

/-- Word character, the ASCII reading of regex w: letters, digits, underscore. -/
def isWordChar (c : Char) : Bool := c.isAlphanum || c = '_'

/-- Character class [w-] used for identifiers in the patterns. -/
def isWordHyphen (c : Char) : Bool := isWordChar c || c = '-'

/-- Whitespace, the ASCII reading of regex s and of str.strip. -/
def pyIsSpace (c : Char) : Bool :=
  c = ' ' || c = '\t' || c = '\n' || c = '\r' || c = '\x0b' || c = '\x0c'

/-- The character class of the attribute-selector pattern [w-=~|^$*"e:s]
    (the bracketed body of the regex matching attribute selectors). -/
def isAttrChar (c : Char) : Bool :=
  isWordChar c || c = '-' || c = '=' || c = '~' || c = '|' || c = '^' ||
  c = '$' || c = '*' || c = '"' || c = '\'' || c = ':' || pyIsSpace c

/-- Combinator class [s>+~] used by the element-count split. -/
def isCombChar (c : Char) : Bool := pyIsSpace c || c = '>' || c = '+' || c = '~'

/-- Length of the leading [w-]+ run. -/
def wordRunLen (l : List Char) : Nat := (l.takeWhile isWordHyphen).length

/-- Python substring containment (the in operator): some suffix has pat as a prefix. -/
def containsSeq (pat : List Char) : List Char → Bool
  | [] => pat.isEmpty
  | c :: rest => pat.isPrefixOf (c :: rest) || containsSeq pat rest

/-- Python str.strip modelled on char lists. -/
def pyStrip (l : List Char) : List Char :=
  ((l.dropWhile pyIsSpace).reverse.dropWhile pyIsSpace).reverse

/-- Python str.split on a single comma: split at every comma, keeping empty pieces. -/
def splitComma : List Char → List (List Char)
  | [] => [[]]
  | c :: rest =>
      if c = ',' then [] :: splitComma rest
      else
        match splitComma rest with
        | [] => [[c]]
        | p :: ps => (c :: p) :: ps

/-- Scan counting matches of mark followed by [w-]+ (the id and class patterns,
    with mark being the hash or the dot).  The Nat argument is the number of
    characters still to skip after a match. -/
def countMark (mark : Char) : Nat → List Char → Nat
  | _, [] => 0
  | k+1, _ :: rest => countMark mark k rest
  | 0, c :: rest =>
      if c = mark ∧ 0 < wordRunLen rest then
        1 + countMark mark (wordRunLen rest) rest
      else countMark mark 0 rest

/-- Scan removing matches of mark followed by [w-]+ (re.sub with empty replacement). -/
def removeMark (mark : Char) : Nat → List Char → List Char
  | _, [] => []
  | k+1, _ :: rest => removeMark mark k rest
  | 0, c :: rest =>
      if c = mark ∧ 0 < wordRunLen rest then
        removeMark mark (wordRunLen rest) rest
      else c :: removeMark mark 0 rest

/-- At an opening square bracket: length of the attribute body plus closing bracket
    when the attribute pattern matches here, else none. -/
def attrLen (rest : List Char) : Option Nat :=
  match rest.dropWhile isAttrChar with
  | ']' :: _ =>
      if (rest.takeWhile isAttrChar).isEmpty then none
      else some ((rest.takeWhile isAttrChar).length + 1)
  | _ => none

/-- Scan counting attribute-selector matches. -/
def countAttr : Nat → List Char → Nat
  | _, [] => 0
  | k+1, _ :: rest => countAttr k rest
  | 0, c :: rest =>
      if c = '[' then
        match attrLen rest with
        | some n => 1 + countAttr n rest
        | none => countAttr 0 rest
      else countAttr 0 rest

/-- Scan removing attribute-selector matches. -/
def removeAttr : Nat → List Char → List Char
  | _, [] => []
  | k+1, _ :: rest => removeAttr k rest
  | 0, c :: rest =>
      if c = '[' then
        match attrLen rest with
        | some n => removeAttr n rest
        | none => c :: removeAttr 0 rest
      else c :: removeAttr 0 rest

/-- The two negative lookaheads of the pseudo-class pattern: after the colon the
    text must not start with not, is, where, has, nor with before, after,
    first-line, first-letter. -/
def pseudoExcluded (rest : List Char) : Bool :=
  (("not").data).isPrefixOf rest || (("is").data).isPrefixOf rest ||
  (("where").data).isPrefixOf rest || (("has").data).isPrefixOf rest ||
  (("before").data).isPrefixOf rest || (("after").data).isPrefixOf rest ||
  (("first-line").data).isPrefixOf rest || (("first-letter").data).isPrefixOf rest

/-- Scan counting plain pseudo-class matches: a colon whose lookaheads pass,
    followed by a nonempty [w-]+ run. -/
def countPlainPseudo : Nat → List Char → Nat
  | _, [] => 0
  | k+1, _ :: rest => countPlainPseudo k rest
  | 0, c :: rest =>
      if c = ':' ∧ pseudoExcluded rest = false ∧ 0 < wordRunLen rest then
        1 + countPlainPseudo (wordRunLen rest) rest
      else countPlainPseudo 0 rest

/-- At a colon: the captured argument of a :not(...) occurrence, when the
    pattern matches here (rest must start with not, an opening parenthesis,
    a nonempty parenthesis-free body, and a closing parenthesis). -/
def notArgOf (rest : List Char) : Option (List Char) :=
  if (("not(").data).isPrefixOf rest then
    match (rest.drop 4).dropWhile (fun c => c ≠ ')') with
    | ')' :: _ =>
        if ((rest.drop 4).takeWhile (fun c => c ≠ ')')).isEmpty then none
        else some ((rest.drop 4).takeWhile (fun c => c ≠ ')'))
    | _ => none
  else none

/-- Scan collecting the captured arguments of all :not(...) matches. -/
def findNotArgs : Nat → List Char → List (List Char)
  | _, [] => []
  | k+1, _ :: rest => findNotArgs k rest
  | 0, c :: rest =>
      if c = ':' then
        match notArgOf rest with
        | some run => run :: findNotArgs (run.length + 5) rest
        | none => findNotArgs 0 rest
      else findNotArgs 0 rest

/-- At a colon: skip length and captured argument list of an :is(...) or
    :has(...) occurrence when the pattern matches here. -/
def isHasArgOf (rest : List Char) : Option (Nat × List Char) :=
  if (("is(").data).isPrefixOf rest then
    match (rest.drop 3).dropWhile (fun c => c ≠ ')') with
    | ')' :: _ =>
        if ((rest.drop 3).takeWhile (fun c => c ≠ ')')).isEmpty then none
        else some (((rest.drop 3).takeWhile (fun c => c ≠ ')')).length + 4,
                   (rest.drop 3).takeWhile (fun c => c ≠ ')'))
    | _ => none
  else if (("has(").data).isPrefixOf rest then
    match (rest.drop 4).dropWhile (fun c => c ≠ ')') with
    | ')' :: _ =>
        if ((rest.drop 4).takeWhile (fun c => c ≠ ')')).isEmpty then none
        else some (((rest.drop 4).takeWhile (fun c => c ≠ ')')).length + 5,
                   (rest.drop 4).takeWhile (fun c => c ≠ ')'))
    | _ => none
  else none

/-- Scan collecting the captured argument lists of all :is(...) and :has(...)
    matches. -/
def findIsHasArgs : Nat → List Char → List (List Char)
  | _, [] => []
  | k+1, _ :: rest => findIsHasArgs k rest
  | 0, c :: rest =>
      if c = ':' then
        match isHasArgOf rest with
        | some nr => nr.2 :: findIsHasArgs nr.1 rest
        | none => findIsHasArgs 0 rest
      else findIsHasArgs 0 rest

/-- The recognized pseudo-element names. -/
def peNames : List (List Char) :=
  [("before").data, ("after").data, ("first-line").data, ("first-letter").data,
   ("backdrop").data, ("placeholder").data, ("marker").data, ("selection").data]

/-- First pseudo-element name that is a prefix here, as its length. -/
def peAltLen (l : List Char) : Option Nat :=
  List.findSome? (fun p => if p.isPrefixOf l then some p.length else none) peNames

/-- At a colon: skip length of a pseudo-element match (the optional second colon
    is tried greedily first, as in the pattern with one optional colon). -/
def peLen (rest : List Char) : Option Nat :=
  match rest with
  | ':' :: t =>
      match peAltLen t with
      | some m => some (1 + m)
      | none => peAltLen rest
  | _ => peAltLen rest

/-- Scan counting pseudo-element matches. -/
def countPE : Nat → List Char → Nat
  | _, [] => 0
  | k+1, _ :: rest => countPE k rest
  | 0, c :: rest =>
      if c = ':' then
        match peLen rest with
        | some n => 1 + countPE n rest
        | none => countPE 0 rest
      else countPE 0 rest

/-- At a colon: skip length of a pseudo-class token with optional parenthesised
    body, the pattern used when isolating element names: a nonempty [w-]+ run,
    then greedily an opening parenthesis, a parenthesis-free body and a closing
    parenthesis if such a closing parenthesis exists. -/
def pseudoLen (rest : List Char) : Option Nat :=
  if wordRunLen rest = 0 then none
  else
    match rest.drop (wordRunLen rest) with
    | '(' :: t =>
        match t.dropWhile (fun c => c ≠ ')') with
        | ')' :: _ => some (wordRunLen rest + 1 + (t.takeWhile (fun c => c ≠ ')')).length + 1)
        | _ => some (wordRunLen rest)
    | _ => some (wordRunLen rest)

/-- Scan removing pseudo-class tokens with optional parenthesised body. -/
def removePseudo : Nat → List Char → List Char
  | _, [] => []
  | k+1, _ :: rest => removePseudo k rest
  | 0, c :: rest =>
      if c = ':' then
        match pseudoLen rest with
        | some n => removePseudo n rest
        | none => c :: removePseudo 0 rest
      else c :: removePseudo 0 rest

/-- At an opening quote: length of the quoted body plus closing quote when a
    closing quote exists. -/
def quoteLen (q : Char) (rest : List Char) : Option Nat :=
  match rest.dropWhile (fun c => c ≠ q) with
  | _ :: _ => some ((rest.takeWhile (fun c => c ≠ q)).length + 1)
  | [] => none

/-- Scan replacing every quoted span with an empty quoted span (the string
    cleaning of clean-selector). -/
def replQuoted (q : Char) : Nat → List Char → List Char
  | _, [] => []
  | k+1, _ :: rest => replQuoted q k rest
  | 0, c :: rest =>
      if c = q then
        match quoteLen q rest with
        | some n => q :: q :: replQuoted q n rest
        | none => c :: replQuoted q 0 rest
      else c :: replQuoted q 0 rest

/-- The clean-selector helper: blank out double-quoted then single-quoted
    string bodies, then strip surrounding whitespace. -/
def clean_selector (l : List Char) : List Char :=
  pyStrip (replQuoted '\'' 0 (replQuoted '"' 0 l))

/-- Maximal runs of non-combinator characters (re.split by runs of [s>+~];
    empty boundary pieces are omitted here: they never pass the nonempty check
    of the element count). -/
def splitPartsGo : List Char → List Char → List (List Char)
  | acc, [] => if acc.isEmpty then [] else [acc.reverse]
  | acc, c :: rest =>
      if isCombChar c then
        if acc.isEmpty then splitPartsGo [] rest
        else acc.reverse :: splitPartsGo [] rest
      else splitPartsGo (c :: acc) rest

/-- Split a selector into combinator-delimited parts. -/
def splitParts (l : List Char) : List (List Char) := splitPartsGo [] l

/-- What remains of a part after ids, classes, attributes and pseudo tokens are
    removed and whitespace is stripped. -/
def elemRemainder (part : List Char) : List Char :=
  pyStrip (removePseudo 0 (removeAttr 0 (removeMark '.' 0 (removeMark '#' 0 part))))

/-- Whether a combinator-delimited part counts as one type-selector element. -/
def partIsElem (part : List Char) : Bool :=
  !(elemRemainder part).isEmpty &&
  decide (elemRemainder part ≠ ['>']) && decide (elemRemainder part ≠ ['+']) &&
  decide (elemRemainder part ≠ ['~']) && decide (elemRemainder part ≠ [',']) &&
  (match elemRemainder part with
   | c :: _ => c.isAlpha
   | [] => false)

/-- The count-elements helper of the calculator. -/
def count_elements (l : List Char) : Nat := ((splitParts l).filter partIsElem).length

/-- The calculate method, with fuel bounding the recursion depth through the
    arguments of :not, :is and :has.  Every recursive call is on a strictly
    shorter list, so any fuel above the input length gives the same value
    (proved below); the wrapper calculate passes length plus one. -/
def calcF : Nat → List Char → Specificity
  | 0, _ => (0, 0, 0, 0)
  | fuel+1, l =>
      if containsSeq (("style=").data) (l.map Char.toLower) then (1, 0, 0, 0)
      else
        (0,
         countMark '#' 0 (clean_selector l),
         countMark '.' 0 (clean_selector l) + countAttr 0 (clean_selector l) +
           (countPlainPseudo 0 (clean_selector l) +
            ((findNotArgs 0 (clean_selector l)).map (fun a => (calcF fuel a).2.2.1)).sum +
            ((findIsHasArgs 0 (clean_selector l)).map (fun args =>
               ((splitComma args).map (fun c => (calcF fuel (pyStrip c)).2.2.1)).foldr Nat.max 0)).sum),
         count_elements (clean_selector l) + countPE 0 (clean_selector l))

/-- Specificity of a selector given as a char list. -/
def calcList (l : List Char) : Specificity := calcF (l.length + 1) l

/-- The public calculate method on strings. -/
def calculate (s : String) : Specificity := calcList s.data

/-- The inline-style test of calculate: the substring style= occurs in the
    lowercased input. -/
def containsStyleEq (s : String) : Bool :=
  containsSeq (("style=").data) (s.data.map Char.toLower)

/-- Contribution of the :not(...) matches to the pseudo-class count: the class
    component of each recursively computed argument. -/
def notContribution (t : List Char) : Nat :=
  ((findNotArgs 0 t).map (fun a => (calcList a).2.2.1)).sum

/-- Contribution of one :is(...) or :has(...) argument list: split on commas,
    strip and recursively compute each candidate, take the maximum class
    component. -/
def isHasContribution (args : List Char) : Nat :=
  ((splitComma args).map (fun c => (calcList (pyStrip c)).2.2.1)).foldr Nat.max 0

/-- The count-pseudo-classes helper: plain pseudo-classes, plus the :not
    contributions, plus the :is and :has contributions. -/
def count_pseudo_classes (t : List Char) : Nat :=
  countPlainPseudo 0 t + notContribution t +
    ((findIsHasArgs 0 t).map isHasContribution).sum

/-- Python tuple comparison spec > threshold, strict greater-than. -/
def pyTupleGT (a b : Specificity) : Bool :=
  decide (b.1 < a.1) ||
  (decide (a.1 = b.1) && (decide (b.2.1 < a.2.1) ||
   (decide (a.2.1 = b.2.1) && (decide (b.2.2.1 < a.2.2.1) ||
    (decide (a.2.2.1 = b.2.2.1) && decide (b.2.2.2 < a.2.2.2))))))

/-- The is-high-specificity method: the computed tuple strictly exceeds the
    configured threshold. -/
def is_high_specificity (threshold spec : Specificity) : Bool := pyTupleGT spec threshold

/-- Modelled from the spec (for comparison with the code): the property that a
    is strictly greater than b in lexicographic order over the four components
    (inline first, then id, then class, then element). -/
def lexStrictGreater (a b : Specificity) : Prop :=
  b.1 < a.1 ∨ (b.1 = a.1 ∧ (b.2.1 < a.2.1 ∨ (b.2.1 = a.2.1 ∧
    (b.2.2.1 < a.2.2.1 ∨ (b.2.2.1 = a.2.2.1 ∧ b.2.2.2 < a.2.2.2)))))

/-- At a slash: length of a comment match, a star then the characters through
    the first star-slash. -/
def closeLen : List Char → Option Nat
  | [] => none
  | '*' :: '/' :: _ => some 2
  | _ :: rest => (closeLen rest).map (· + 1)

/-- Length of a full comment starting at a slash (slash consumed by the caller):
    the star plus the body through the closing star-slash. -/
def commentLen (rest : List Char) : Option Nat :=
  match rest with
  | '*' :: t => (closeLen t).map (fun m => 1 + m)
  | _ => none

/-- Scan removing comment spans (re.sub of the non-greedy comment pattern with
    DOTALL). -/
def removeComments : Nat → List Char → List Char
  | _, [] => []
  | k+1, _ :: rest => removeComments k rest
  | 0, c :: rest =>
      if c = '/' then
        match commentLen rest with
        | some n => removeComments n rest
        | none => c :: removeComments 0 rest
      else c :: removeComments 0 rest

/-- Rule preludes: every maximal run of non-brace characters immediately
    followed by an opening brace. -/
def findPreludes : List Char → List Char → List (List Char)
  | _, [] => []
  | acc, c :: rest =>
      if c = '{' then
        if acc.isEmpty then findPreludes [] rest
        else acc.reverse :: findPreludes [] rest
      else if c = '}' then findPreludes [] rest
      else findPreludes (c :: acc) rest

/-- The extract-selectors method: strip comments, find rule preludes, drop
    at-rule preludes, split the rest on commas, strip, drop empty pieces and
    pieces starting with an at sign. -/
def extract_selectors (css : String) : List String :=
  ((findPreludes [] (removeComments 0 css.data)).map (fun pre =>
      if (pyStrip pre).head? = some '@' then []
      else (splitComma pre).filterMap (fun part =>
        if (pyStrip part).isEmpty then none
        else if (pyStrip part).head? = some '@' then none
        else some (String.mk (pyStrip part))))).flatten

/-- The counting part of analyze-file, given the file content: total number of
    extracted selectors and number of selectors whose specificity exceeds the
    threshold. -/
def analyze_file_counts (threshold : Specificity) (content : String) : Nat × Nat :=
  ((extract_selectors content).length,
   ((extract_selectors content).filter
      (fun sel => is_high_specificity threshold (calculate sel))).length)

/-- The example stylesheet of the extraction test case. -/
def mediaExample : String :=
  "/* c */ .a, .b \x7b color: red; \x7d @media screen \x7b .c \x7b color: blue; \x7d \x7d"

/-- The example stylesheet of the end-to-end analysis test case: its extracted
    selectors are exactly the two selectors of the claim. -/
def endToEndExample : String :=
  "#id .a .b .c \x7b color: red; \x7d div \x7b margin: 0; \x7d"

/-! Length bounds on the scanners, feeding the termination argument. -/

theorem takeWhile_len_le (p : Char → Bool) (l : List Char) :
    (l.takeWhile p).length ≤ l.length := by
  have h := congrArg List.length (List.takeWhile_append_dropWhile p l)
  rw [List.length_append] at h
  omega

theorem dropWhile_len_le (p : Char → Bool) (l : List Char) :
    (l.dropWhile p).length ≤ l.length := by
  have h := congrArg List.length (List.takeWhile_append_dropWhile p l)
  rw [List.length_append] at h
  omega

theorem pyStrip_len_le (l : List Char) : (pyStrip l).length ≤ l.length := by
  unfold pyStrip
  rw [List.length_reverse]
  have h1 := dropWhile_len_le pyIsSpace l
  have h2 := dropWhile_len_le pyIsSpace (l.dropWhile pyIsSpace).reverse
  rw [List.length_reverse] at h2
  omega

theorem quoteLen_bounds (q : Char) (rest : List Char) (n : Nat)
    (h : quoteLen q rest = some n) : 1 ≤ n ∧ n ≤ rest.length := by
  unfold quoteLen at h
  cases hd : rest.dropWhile (fun c => c ≠ q) with
  | nil => rw [hd] at h; cases h
  | cons x xs =>
    rw [hd] at h
    have hsum := congrArg List.length (List.takeWhile_append_dropWhile (fun c => c ≠ q) rest)
    rw [List.length_append, hd] at hsum
    simp only [Option.some.injEq] at h
    simp only [List.length_cons] at hsum
    omega

theorem replQuoted_len (q : Char) :
    ∀ (l : List Char) (k : Nat), (replQuoted q k l).length + min k l.length ≤ l.length := by
  intro l
  induction l with
  | nil => intro k; simp [replQuoted]
  | cons c rest ih =>
    intro k
    cases k with
    | succ m =>
      have h := ih m
      simp only [replQuoted, List.length_cons, Nat.succ_min_succ]
      omega
    | zero =>
      simp only [replQuoted, Nat.zero_min, Nat.add_zero, List.length_cons]
      by_cases hc : c = q
      · rw [if_pos hc]
        cases hq : quoteLen q rest with
        | none =>
          simp only [List.length_cons]
          have h := ih 0
          simp only [Nat.zero_min, Nat.add_zero] at h
          omega
        | some n =>
          have hb := quoteLen_bounds q rest n hq
          have h := ih n
          have hmin : min n rest.length = n := Nat.min_eq_left hb.2
          simp only [List.length_cons]
          omega
      · rw [if_neg hc]
        simp only [List.length_cons]
        have h := ih 0
        simp only [Nat.zero_min, Nat.add_zero] at h
        omega

theorem replQuoted_len_le (q : Char) (l : List Char) :
    (replQuoted q 0 l).length ≤ l.length := by
  have h := replQuoted_len q l 0
  simp only [Nat.zero_min, Nat.add_zero] at h
  exact h

theorem clean_selector_len_le (l : List Char) : (clean_selector l).length ≤ l.length := by
  unfold clean_selector
  have h1 := replQuoted_len_le '"' l
  have h2 := replQuoted_len_le '\'' (replQuoted '"' 0 l)
  have h3 := pyStrip_len_le (replQuoted '\'' 0 (replQuoted '"' 0 l))
  omega

theorem splitComma_mem_len : ∀ (l : List Char), ∀ p ∈ splitComma l, p.length ≤ l.length := by
  intro l
  induction l with
  | nil =>
    intro p hp
    simp only [splitComma, List.mem_singleton] at hp
    subst hp
    exact Nat.le_refl 0
  | cons c rest ih =>
    intro p hp
    simp only [splitComma] at hp
    by_cases hc : c = ','
    · rw [if_pos hc] at hp
      rcases List.mem_cons.mp hp with h | h
      · subst h; simp
      · have := ih p h; simp only [List.length_cons]; omega
    · rw [if_neg hc] at hp
      cases hs : splitComma rest with
      | nil =>
        rw [hs] at hp
        simp only [List.mem_singleton] at hp
        subst hp
        simp only [List.length_cons, List.length_nil]
        omega
      | cons hd tl =>
        rw [hs] at hp
        rcases List.mem_cons.mp hp with h | h
        · subst h
          have hm : hd ∈ splitComma rest := by rw [hs]; exact List.mem_cons_self hd tl
          have := ih hd hm
          simp only [List.length_cons]
          omega
        · have hm : p ∈ splitComma rest := by rw [hs]; exact List.mem_cons_of_mem hd h
          have := ih p hm
          simp only [List.length_cons]
          omega

theorem notArgOf_len (rest run : List Char) (h : notArgOf rest = some run) :
    run.length ≤ rest.length := by
  unfold notArgOf at h
  split at h
  · split at h
    · split at h
      · cases h
      · simp only [Option.some.injEq] at h
        subst h
        have t1 := takeWhile_len_le (fun c => c ≠ ')') (rest.drop 4)
        have t2 : (rest.drop 4).length ≤ rest.length := by
          rw [List.length_drop]; omega
        omega
    · cases h
  · cases h

theorem findNotArgs_mem_len : ∀ (l : List Char) (k : Nat) (a : List Char),
    a ∈ findNotArgs k l → a.length < l.length := by
  intro l
  induction l with
  | nil => intro k a ha; simp [findNotArgs] at ha
  | cons c rest ih =>
    intro k a ha
    cases k with
    | succ m =>
      simp only [findNotArgs] at ha
      have := ih m a ha
      simp only [List.length_cons]
      omega
    | zero =>
      simp only [findNotArgs] at ha
      by_cases hc : c = ':'
      · rw [if_pos hc] at ha
        cases hn : notArgOf rest with
        | some run =>
          rw [hn] at ha
          rcases List.mem_cons.mp ha with h | h
          · subst h
            have := notArgOf_len rest a hn
            simp only [List.length_cons]
            omega
          · have := ih (run.length + 5) a h
            simp only [List.length_cons]
            omega
        | none =>
          rw [hn] at ha
          have := ih 0 a ha
          simp only [List.length_cons]
          omega
      · rw [if_neg hc] at ha
        have := ih 0 a ha
        simp only [List.length_cons]
        omega

theorem isHasArgOf_len (rest : List Char) (n : Nat) (run : List Char)
    (h : isHasArgOf rest = some (n, run)) : run.length ≤ rest.length := by
  unfold isHasArgOf at h
  by_cases hi : (("is(").data).isPrefixOf rest = true
  · rw [if_pos hi] at h
    split at h
    · split at h
      · cases h
      · simp only [Option.some.injEq, Prod.mk.injEq] at h
        obtain ⟨h1, h2⟩ := h
        subst h2
        have t1 := takeWhile_len_le (fun c => c ≠ ')') (rest.drop 3)
        have t2 : (rest.drop 3).length ≤ rest.length := by
          rw [List.length_drop]; omega
        omega
    · cases h
  · rw [if_neg hi] at h
    by_cases hh : (("has(").data).isPrefixOf rest = true
    · rw [if_pos hh] at h
      split at h
      · split at h
        · cases h
        · simp only [Option.some.injEq, Prod.mk.injEq] at h
          obtain ⟨h1, h2⟩ := h
          subst h2
          have t1 := takeWhile_len_le (fun c => c ≠ ')') (rest.drop 4)
          have t2 : (rest.drop 4).length ≤ rest.length := by
            rw [List.length_drop]; omega
          omega
      · cases h
    · rw [if_neg hh] at h
      cases h

theorem findIsHasArgs_mem_len : ∀ (l : List Char) (k : Nat) (a : List Char),
    a ∈ findIsHasArgs k l → a.length < l.length := by
  intro l
  induction l with
  | nil => intro k a ha; simp [findIsHasArgs] at ha
  | cons c rest ih =>
    intro k a ha
    cases k with
    | succ m =>
      simp only [findIsHasArgs] at ha
      have := ih m a ha
      simp only [List.length_cons]
      omega
    | zero =>
      simp only [findIsHasArgs] at ha
      by_cases hc : c = ':'
      · rw [if_pos hc] at ha
        cases hn : isHasArgOf rest with
        | some nr =>
          rw [hn] at ha
          rcases List.mem_cons.mp ha with h | h
          · subst h
            have := isHasArgOf_len rest nr.1 nr.2 hn
            simp only [List.length_cons]
            omega
          · have := ih nr.1 a h
            simp only [List.length_cons]
            omega
        | none =>
          rw [hn] at ha
          have := ih 0 a ha
          simp only [List.length_cons]
          omega
      · rw [if_neg hc] at ha
        have := ih 0 a ha
        simp only [List.length_cons]
        omega

/-! Fuel independence of the calculator: any fuel above the input length
    computes the same specificity, because every recursive call through a
    :not, :is or :has argument is on a strictly shorter list. -/

theorem calcF_congr : ∀ (N : Nat) (l : List Char), l.length ≤ N →
    ∀ f₁ f₂ : Nat, l.length < f₁ → l.length < f₂ → calcF f₁ l = calcF f₂ l := by
  intro N
  induction N with
  | zero =>
    intro l hl f₁ f₂ h₁ h₂
    have hnil : l = [] := List.length_eq_zero.mp (Nat.le_zero.mp hl)
    subst hnil
    obtain ⟨g₁, rfl⟩ : ∃ g, f₁ = g + 1 := ⟨f₁ - 1, by omega⟩
    obtain ⟨g₂, rfl⟩ : ∃ g, f₂ = g + 1 := ⟨f₂ - 1, by omega⟩
    rfl
  | succ N ih =>
    intro l hl f₁ f₂ h₁ h₂
    obtain ⟨g₁, rfl⟩ : ∃ g, f₁ = g + 1 := ⟨f₁ - 1, by omega⟩
    obtain ⟨g₂, rfl⟩ : ∃ g, f₂ = g + 1 := ⟨f₂ - 1, by omega⟩
    simp only [calcF]
    by_cases hs : containsSeq (("style=").data) (l.map Char.toLower) = true
    · simp only [if_pos hs]
    · simp only [if_neg hs]
      have hcl := clean_selector_len_le l
      have e₁ : List.map (fun a => (calcF g₁ a).2.2.1) (findNotArgs 0 (clean_selector l)) =
          List.map (fun a => (calcF g₂ a).2.2.1) (findNotArgs 0 (clean_selector l)) := by
        apply List.map_congr_left
        intro a ha
        have hal := findNotArgs_mem_len (clean_selector l) 0 a ha
        have he : calcF g₁ a = calcF g₂ a := ih a (by omega) g₁ g₂ (by omega) (by omega)
        rw [he]
      have e₂ : List.map (fun args =>
            ((splitComma args).map (fun c => (calcF g₁ (pyStrip c)).2.2.1)).foldr Nat.max 0)
            (findIsHasArgs 0 (clean_selector l)) =
          List.map (fun args =>
            ((splitComma args).map (fun c => (calcF g₂ (pyStrip c)).2.2.1)).foldr Nat.max 0)
            (findIsHasArgs 0 (clean_selector l)) := by
        apply List.map_congr_left
        intro args hargs
        have harg := findIsHasArgs_mem_len (clean_selector l) 0 args hargs
        have einner : List.map (fun c => (calcF g₁ (pyStrip c)).2.2.1) (splitComma args) =
            List.map (fun c => (calcF g₂ (pyStrip c)).2.2.1) (splitComma args) := by
          apply List.map_congr_left
          intro p hp
          have hp1 := splitComma_mem_len args p hp
          have hp2 := pyStrip_len_le p
          have he : calcF g₁ (pyStrip p) = calcF g₂ (pyStrip p) :=
            ih (pyStrip p) (by omega) g₁ g₂ (by omega) (by omega)
          rw [he]
        rw [einner]
      rw [e₁, e₂]

/-! Facts about all-whitespace input, feeding the boundary-case claim. -/

theorem pyIsSpace_cases (c : Char) (h : pyIsSpace c = true) :
    c = ' ' ∨ c = '\t' ∨ c = '\n' ∨ c = '\r' ∨ c = '\x0b' ∨ c = '\x0c' := by
  simp only [pyIsSpace, Bool.or_eq_true, decide_eq_true_eq] at h
  tauto

theorem space_toLower (c : Char) (h : pyIsSpace c = true) : Char.toLower c = c := by
  rcases pyIsSpace_cases c h with rfl | rfl | rfl | rfl | rfl | rfl <;> decide

theorem allSpace_no_style : ∀ (l : List Char), (∀ c ∈ l, pyIsSpace c = true) →
    containsSeq (("style=").data) (l.map Char.toLower) = false := by
  intro l
  induction l with
  | nil => intro _; rfl
  | cons c rest ih =>
    intro h
    simp only [List.map_cons, containsSeq]
    rw [ih (fun x hx => h x (List.mem_cons_of_mem c hx))]
    rw [Bool.or_false]
    rw [space_toLower c (h c (List.mem_cons_self c rest))]
    rcases pyIsSpace_cases c (h c (List.mem_cons_self c rest)) with
      rfl | rfl | rfl | rfl | rfl | rfl <;> rfl

theorem space_not_quote (c : Char) (h : pyIsSpace c = true) :
    ¬(c = '"') ∧ ¬(c = '\'') := by
  rcases pyIsSpace_cases c h with rfl | rfl | rfl | rfl | rfl | rfl <;>
    exact ⟨by decide, by decide⟩

theorem replQuoted_id (q : Char) : ∀ (l : List Char), (∀ c ∈ l, ¬(c = q)) →
    replQuoted q 0 l = l := by
  intro l
  induction l with
  | nil => intro _; rfl
  | cons c rest ih =>
    intro h
    simp only [replQuoted]
    rw [if_neg (h c (List.mem_cons_self c rest))]
    rw [ih (fun x hx => h x (List.mem_cons_of_mem c hx))]

theorem dropWhile_all (p : Char → Bool) : ∀ (l : List Char),
    (∀ c ∈ l, p c = true) → l.dropWhile p = [] := by
  intro l
  induction l with
  | nil => intro _; rfl
  | cons c rest ih =>
    intro h
    rw [List.dropWhile_cons, if_pos (h c (List.mem_cons_self c rest))]
    exact ih (fun x hx => h x (List.mem_cons_of_mem c hx))

theorem clean_allSpace (l : List Char) (h : ∀ c ∈ l, pyIsSpace c = true) :
    clean_selector l = [] := by
  unfold clean_selector
  rw [replQuoted_id '"' l (fun c hc => (space_not_quote c (h c hc)).1)]
  rw [replQuoted_id '\'' l (fun c hc => (space_not_quote c (h c hc)).2)]
  unfold pyStrip
  rw [dropWhile_all pyIsSpace l h]
  rfl

/-! The claims. -/

/-- C1: the code does not suppress the weight of arguments inside where.
    Evaluating calculate at the failing input: the selector consisting only of
    the where form with a class argument gets class component 1, exactly the
    class component of the bare class selector, because the top-level class
    scan still matches the dot-identifier inside the parentheses. -/
theorem calculate_where_argument_counted :
    calculate (":where(.a)") = (0, 0, 1, 0) ∧ calculate (".a") = (0, 0, 1, 0) :=
  ⟨rfl, rfl⟩

/-- C2 counterexample: on the stylesheet of the claim, extract does not return
    just the two top-level selectors; the rule block nested inside the media
    at-rule is also recovered, so the result is not the claimed pair. -/
theorem extract_nested_at_rule_kept :
    extract_selectors mediaExample ≠ [".a", ".b"] := by decide

/-- C2 amended: on the stylesheet of the claim, extract returns the two
    top-level selectors and the selector of the rule nested inside the media
    block: the at-rule prelude itself is discarded, but every non-at prelude
    before an opening brace, including those inside an at-rule body, is kept. -/
theorem extract_media_example :
    extract_selectors mediaExample = [".a", ".b", ".c"] := by decide

/-- C3 counterexample: the two-colon backdrop pseudo-element does not get class
    component 0; it is also counted as a pseudo-class, because the pseudo-class
    lookahead only excludes the four CSS2 pseudo-element names. -/
theorem pseudo_element_backdrop_class_nonzero :
    ¬ ((calculate ("::backdrop")).2.2.2 = 1 ∧ (calculate ("::backdrop")).2.2.1 = 0) := by
  decide

/-- C3 amended: all sixteen pseudo-element forms (each of the eight names with
    one or two leading colons) contribute 1 to the element component; the four
    CSS2 names (before, after, first-line, first-letter) contribute 0 to the
    class component, while backdrop, placeholder, marker and selection also
    contribute 1 to the class component, since the pseudo-class exclusion
    lookahead lists only the four CSS2 names. -/
theorem pseudo_element_sixteen_forms :
    calculate (":before") = (0, 0, 0, 1) ∧ calculate ("::before") = (0, 0, 0, 1) ∧
    calculate (":after") = (0, 0, 0, 1) ∧ calculate ("::after") = (0, 0, 0, 1) ∧
    calculate (":first-line") = (0, 0, 0, 1) ∧ calculate ("::first-line") = (0, 0, 0, 1) ∧
    calculate (":first-letter") = (0, 0, 0, 1) ∧ calculate ("::first-letter") = (0, 0, 0, 1) ∧
    calculate (":backdrop") = (0, 0, 1, 1) ∧ calculate ("::backdrop") = (0, 0, 1, 1) ∧
    calculate (":placeholder") = (0, 0, 1, 1) ∧ calculate ("::placeholder") = (0, 0, 1, 1) ∧
    calculate (":marker") = (0, 0, 1, 1) ∧ calculate ("::marker") = (0, 0, 1, 1) ∧
    calculate (":selection") = (0, 0, 1, 1) ∧ calculate ("::selection") = (0, 0, 1, 1) :=
  ⟨rfl, rfl, rfl, rfl, rfl, rfl, rfl, rfl, rfl, rfl, rfl, rfl, rfl, rfl, rfl, rfl⟩

/-- C4 counterexample: on a stylesheet whose extracted selectors are exactly
    the two selectors of the claim, the analysis with the default threshold
    does not report one high-specificity selector: the first selector ties the
    threshold on the class component and loses on the element component, so the
    strict comparison is false for both selectors. -/
theorem analyze_example_high_count_ne_one :
    extract_selectors endToEndExample = ["#id .a .b .c", "div"] ∧
    (analyze_file_counts (0, 1, 3, 3) endToEndExample).2 ≠ 1 :=
  ⟨rfl, by decide⟩

/-- C4 amended: analyzing a stylesheet whose extracted selectors are exactly
    the two selectors of the claim against threshold (0,1,3,3) yields two total
    selectors and zero high-specificity selectors: the first selector computes
    to (0,1,3,0), which does not lexicographically exceed (0,1,3,3). -/
theorem analyze_example_counts :
    extract_selectors endToEndExample = ["#id .a .b .c", "div"] ∧
    analyze_file_counts (0, 1, 3, 3) endToEndExample = (2, 0) ∧
    calculate ("#id .a .b .c") = (0, 1, 3, 0) ∧
    calculate ("div") = (0, 0, 0, 1) :=
  ⟨rfl, rfl, rfl, rfl⟩

/-- C5: if the lowercased input contains the style-equals marker anywhere,
    calculate returns the pure inline tuple immediately; otherwise the inline
    component of the result is 0. -/
theorem calculate_style_attr_inline (s : String) :
    (containsStyleEq s = true → calculate s = (1, 0, 0, 0)) ∧
    (containsStyleEq s = false → (calculate s).1 = 0) := by
  constructor
  · intro h
    show calcF (s.data.length + 1) s.data = (1, 0, 0, 0)
    simp only [calcF]
    split
    · rfl
    · rename_i hff
      exact absurd h hff
  · intro h
    show (calcF (s.data.length + 1) s.data).1 = 0
    simp only [calcF]
    split
    · rename_i htt
      exact absurd (show containsStyleEq s = true from htt) (by simp [h])
    · rfl

/-- C5 witness: a concrete string containing the marker maps to the inline
    tuple, and a concrete string without it has inline component 0. -/
theorem calculate_style_attr_inline_witness :
    calculate ("a style=\"color:red\"") = (1, 0, 0, 0) ∧ (calculate (".a")).1 = 0 :=
  ⟨(calculate_style_attr_inline ("a style=\"color:red\"")).1 (by decide),
   (calculate_style_attr_inline (".a")).2 (by decide)⟩

/-- C6: the threshold comparison is exactly strict lexicographic greater-than
    over (inline, id, class, element); in particular a tuple equal to the
    threshold does not exceed it, and a higher id component dominates lower
    class and element components. -/
theorem is_high_specificity_lex :
    (∀ spec threshold : Specificity,
      is_high_specificity threshold spec = true ↔ lexStrictGreater spec threshold) ∧
    is_high_specificity (0, 1, 3, 3) (0, 1, 3, 3) = false ∧
    is_high_specificity (0, 1, 3, 3) (0, 2, 0, 0) = true := by
  refine ⟨?_, by decide, by decide⟩
  intro spec threshold
  obtain ⟨a1, a2, a3, a4⟩ := spec
  obtain ⟨b1, b2, b3, b4⟩ := threshold
  simp only [is_high_specificity, pyTupleGT, lexStrictGreater, Bool.or_eq_true,
    Bool.and_eq_true, decide_eq_true_eq]
  omega

/-- C7: an is form with two comma-separated candidates contributes the maximum
    of the candidates' class components, not their sum: the captured argument
    list is split on commas, each stripped candidate is recursively computed,
    and the maximum class component is added; on the example the contribution
    is the maximum of 1 and 0, and on a second example with candidates of class
    2 and 1 the pseudo-class count is 2, not the sum 3. -/
theorem is_has_max_contribution :
    findIsHasArgs 0 ((":is(.a, #b)").data) = [(".a, #b").data] ∧
    (splitComma ((".a, #b").data)).map pyStrip = [(".a").data, ("#b").data] ∧
    isHasContribution ((".a, #b").data) =
      Nat.max ((calculate (".a")).2.2.1) ((calculate ("#b")).2.2.1) ∧
    (calculate (".a")).2.2.1 = 1 ∧ (calculate ("#b")).2.2.1 = 0 ∧
    count_pseudo_classes ((":is(.a, #b)").data) = 1 ∧
    calculate (":is(.a, #b)") =
      (0, 1, 1 + count_pseudo_classes ((":is(.a, #b)").data), 0) ∧
    count_pseudo_classes ((":is(.a.b, .c)").data) = 2 ∧
    count_pseudo_classes ((":is(.a.b, .c)").data) ≠
      (calculate (".a.b")).2.2.1 + (calculate (".c")).2.2.1 :=
  ⟨rfl, rfl, rfl, rfl, rfl, rfl, rfl, rfl, by decide⟩

/-- C8: calculate is total and its recursion terminates: any fuel above the
    input length computes the same value as calculate (the fuel never runs
    out), and every recursive call through a not, is or has argument receives a
    strictly shorter string than the cleaned selector it was extracted from,
    which is itself no longer than the input. -/
theorem calculate_total_terminating :
    (∀ (fuel : Nat) (s : String), s.length < fuel → calcF fuel s.data = calculate s) ∧
    (∀ l a : List Char, a ∈ findNotArgs 0 l → a.length < l.length) ∧
    (∀ l a : List Char, a ∈ findIsHasArgs 0 l → a.length < l.length) ∧
    (∀ l : List Char, (clean_selector l).length ≤ l.length) := by
  refine ⟨?_, fun l a h => findNotArgs_mem_len l 0 a h,
    fun l a h => findIsHasArgs_mem_len l 0 a h, clean_selector_len_le⟩
  intro fuel s h
  exact calcF_congr s.data.length s.data (Nat.le_refl _) fuel (s.data.length + 1)
    h (by omega)

/-- C8 witness: a large concrete fuel computes the same specificity as
    calculate on a concrete recursive selector. -/
theorem calculate_total_terminating_witness :
    calcF 100 ((":not(.a)").data) = calculate (":not(.a)") :=
  calculate_total_terminating.1 100 (":not(.a)") (by decide)

/-- C9: all four components of every computed specificity are non-negative
    integers (they are natural-number counts). -/
theorem calculate_components_nonneg (s : String) :
    0 ≤ ((calculate s).1 : Int) ∧ 0 ≤ ((calculate s).2.1 : Int) ∧
    0 ≤ ((calculate s).2.2.1 : Int) ∧ 0 ≤ ((calculate s).2.2.2 : Int) :=
  ⟨Int.natCast_nonneg _, Int.natCast_nonneg _, Int.natCast_nonneg _, Int.natCast_nonneg _⟩

/-- C10: on the empty string and on any all-whitespace string, calculate
    returns the all-zero tuple rather than failing: the style check fails, and
    cleaning strips the input down to the empty list, on which every count is
    zero. -/
theorem calculate_whitespace_zero (s : String) (h : ∀ c ∈ s.data, pyIsSpace c = true) :
    calculate s = (0, 0, 0, 0) := by
  have hstyle := allSpace_no_style s.data h
  have hclean := clean_allSpace s.data h
  show calcF (s.data.length + 1) s.data = (0, 0, 0, 0)
  simp only [calcF]
  split
  · rename_i htt
    exact absurd (show containsSeq (("style=").data) (s.data.map Char.toLower) = true from htt)
      (by simp [hstyle])
  · rw [hclean]
    rfl

/-- C10 witness: the empty string and a concrete all-whitespace string both
    map to the all-zero tuple. -/
theorem calculate_whitespace_zero_witness :
    calculate ("") = (0, 0, 0, 0) ∧ calculate ("  ") = (0, 0, 0, 0) :=
  ⟨calculate_whitespace_zero ("") (by decide),
   calculate_whitespace_zero ("  ") (by decide)⟩

end CssCheck
